import Mathlib

/-!
Verification development for the pairs-trading decision engine
(cointegrated pairs trading with order-book-aware execution).

The repository ships the visualization layer (`TradingDashboard.js`,
`OrderBookViz`) as concrete JavaScript; the decision engine itself
(spread model, signal state machine, execution model, risk manager,
backtest engine) is specified in the design document but its source
modules are empty scaffolds, so those components are modelled here
from the specification text.

Numeric conventions: prices and quantities are rationals (ℚ),
timestamps are integers (ℤ).  JavaScript floating-point values are
modelled as exact rationals.
-/

namespace PairsTrading

/-! ## Order Book Execution Model (§4.3)

Modelled from the spec: the execution model's source module
(`pairs_trading/execution/trade_executor.py`) is an empty scaffold;
the definitions below follow §4.3 of the design document. -/

/-- One price level of an order book side. -/
structure Level where
  price : ℚ
  quantity : ℚ
deriving Repr, DecidableEq

/-- Modelled from the spec: an order-book depth snapshot with bids
(price descending) and asks (price ascending); each side is walked in
list order, which is priority order. -/
structure OrderBookSnapshot where
  timestamp : ℤ
  bids : List Level
  asks : List Level
deriving Repr, DecidableEq

inductive Side where
  | buy
  | sell
deriving Repr, DecidableEq

/-- Modelled from the spec: result of `estimateFill`. -/
structure FillEstimate where
  achievedQuantity : ℚ
  vwap : ℚ
  slippage : ℚ
  fullyFilled : Bool
deriving Repr, DecidableEq

inductive ExecError where
  | emptyBook
deriving Repr, DecidableEq

/-- Modelled from the spec: walk the price levels in priority order,
accumulating quantity until the desired quantity is satisfied or the
book is exhausted.  Returns (filled quantity, total cost). -/
def walkLevels : List Level → ℚ → ℚ × ℚ
  | [], _ => (0, 0)
  | l :: rest, remaining =>
    if remaining ≤ 0 then (0, 0)
    else
      let take := min remaining l.quantity
      let r := walkLevels rest (remaining - take)
      (take + r.1, take * l.price + r.2)

/-- The (price, consumed quantity) pairs of the levels actually
consumed by the walk, in walk order. -/
def consumedLevels : List Level → ℚ → List (ℚ × ℚ)
  | [], _ => []
  | l :: rest, remaining =>
    if remaining ≤ 0 then []
    else
      let take := min remaining l.quantity
      (l.price, take) :: consumedLevels rest (remaining - take)

/-- Total visible depth of one side of the book. -/
def depth (levels : List Level) : ℚ := (levels.map Level.quantity).sum

/-- The side of the book that a BUY (asks) or SELL (bids) consumes. -/
def sideLevels (snap : OrderBookSnapshot) : Side → List Level
  | .buy => snap.asks
  | .sell => snap.bids

/-- Modelled from the spec: `estimateFill(snapshot, side, desiredQuantity)`.
Walks the requested side in priority order; returns achievable quantity,
volume-weighted average price, slippage relative to the best quote, and
a `fullyFilled` flag.  Fails with `EmptyBookError` when the requested
side has zero levels.  Pure read: the snapshot is never mutated. -/
def estimateFill (snap : OrderBookSnapshot) (side : Side) (desired : ℚ) :
    Except ExecError FillEstimate :=
  match sideLevels snap side with
  | [] => .error .emptyBook
  | best :: rest =>
    let r := walkLevels (best :: rest) desired
    let filled := r.1
    let vwap := if filled = 0 then 0 else r.2 / filled
    let slip := if best.price = 0 then 0 else |vwap - best.price| / best.price
    .ok { achievedQuantity := filled
          vwap := vwap
          slippage := slip
          fullyFilled := decide (filled = desired) }

/-- Price of the first level consumed by the walk (best consumed). -/
def bestConsumedPrice (levels : List Level) (q : ℚ) : ℚ :=
  match consumedLevels levels q with
  | [] => 0
  | c :: _ => c.1

/-- Price of the last element of a consumed-levels list. -/
def lastConsumed : List (ℚ × ℚ) → ℚ
  | [] => 0
  | [c] => c.1
  | _ :: c :: rest => lastConsumed (c :: rest)

/-- Price of the last level consumed by the walk (worst consumed). -/
def worstConsumedPrice (levels : List Level) (q : ℚ) : ℚ :=
  lastConsumed (consumedLevels levels q)

/-- Sum of consumed quantities. -/
def sumTaken (cs : List (ℚ × ℚ)) : ℚ := (cs.map Prod.snd).sum

/-- Total cost of the consumed quantities. -/
def sumCost (cs : List (ℚ × ℚ)) : ℚ := (cs.map (fun c => c.2 * c.1)).sum

theorem depth_nonneg {levels : List Level}
    (hq : ∀ l ∈ levels, 0 ≤ l.quantity) : 0 ≤ depth levels := by
  induction levels with
  | nil => simp [depth]
  | cons l rest ih =>
    have h1 := hq l (List.mem_cons_self l rest)
    have h2 : 0 ≤ depth rest := ih fun x hx => hq x (List.mem_cons_of_mem l hx)
    simp only [depth, List.map_cons, List.sum_cons] at h2 ⊢
    linarith

theorem walk_fst_eq_min {levels : List Level} {q : ℚ}
    (hq : ∀ l ∈ levels, 0 ≤ l.quantity) (h0 : 0 ≤ q) :
    (walkLevels levels q).1 = min q (depth levels) := by
  induction levels generalizing q with
  | nil => simp [walkLevels, depth, min_eq_right h0]
  | cons l rest ih =>
    have hl : 0 ≤ l.quantity := hq l (List.mem_cons_self l rest)
    have hrest : ∀ x ∈ rest, 0 ≤ x.quantity :=
      fun x hx => hq x (List.mem_cons_of_mem l hx)
    have hdrest : 0 ≤ depth rest := depth_nonneg hrest
    simp only [walkLevels]
    by_cases hneg : q ≤ 0
    · have hq0 : q = 0 := le_antisymm hneg h0
      subst hq0
      simp only [le_refl, if_pos]
      have : (0 : ℚ) ≤ depth (l :: rest) := depth_nonneg hq
      simp [min_eq_left this]
    · simp only [if_neg hneg]
      have hpos : 0 < q := lt_of_not_le hneg
      have htake0 : 0 ≤ q - min q l.quantity := by
        rcases min_le_left q l.quantity with h
        linarith [min_le_left q l.quantity]
      rw [ih hrest htake0]
      have hD : depth (l :: rest) = l.quantity + depth rest := by
        simp [depth]
      rw [hD]
      rcases le_total q l.quantity with hle | hle
      · rw [min_eq_left hle]
        have hz : q - q = 0 := by ring
        rw [hz, min_eq_left hdrest]
        have hle2 : q ≤ l.quantity + depth rest := by linarith
        rw [min_eq_left hle2]
        ring
      · rw [min_eq_right hle]
        rcases le_total (q - l.quantity) (depth rest) with h2 | h2
        · rw [min_eq_left h2]
          have hle2 : q ≤ l.quantity + depth rest := by linarith
          rw [min_eq_left hle2]
          ring
        · rw [min_eq_right h2]
          have hge : l.quantity + depth rest ≤ q := by linarith
          rw [min_eq_right hge]

theorem walk_eq_consumed (levels : List Level) (q : ℚ) :
    walkLevels levels q =
      (sumTaken (consumedLevels levels q), sumCost (consumedLevels levels q)) := by
  induction levels generalizing q with
  | nil => simp [walkLevels, consumedLevels, sumTaken, sumCost]
  | cons l rest ih =>
    simp only [walkLevels, consumedLevels]
    by_cases hneg : q ≤ 0
    · simp [hneg, sumTaken, sumCost]
    · simp only [if_neg hneg, ih, sumTaken, sumCost, List.map_cons, List.sum_cons]

theorem consumed_snd_pos {levels : List Level} {q : ℚ}
    (hq : ∀ l ∈ levels, 0 < l.quantity) :
    ∀ c ∈ consumedLevels levels q, 0 < c.2 := by
  induction levels generalizing q with
  | nil => simp [consumedLevels]
  | cons l rest ih =>
    intro c hc
    simp only [consumedLevels] at hc
    by_cases hneg : q ≤ 0
    · simp [hneg] at hc
    · simp only [if_neg hneg, List.mem_cons] at hc
      rcases hc with hc | hc
      · subst hc
        simp only
        exact lt_min (lt_of_not_le hneg) (hq l (List.mem_cons_self l rest))
      · exact ih (fun x hx => hq x (List.mem_cons_of_mem l hx)) c hc

theorem consumed_prices_sublist (levels : List Level) (q : ℚ) :
    ((consumedLevels levels q).map Prod.fst).Sublist (levels.map Level.price) := by
  induction levels generalizing q with
  | nil => simp [consumedLevels]
  | cons l rest ih =>
    simp only [consumedLevels]
    by_cases hneg : q ≤ 0
    · simp [hneg]
    · simp only [if_neg hneg, List.map_cons]
      exact List.Sublist.cons₂ _ (ih _)

theorem sumTaken_nonneg {cs : List (ℚ × ℚ)} (h : ∀ c ∈ cs, 0 ≤ c.2) :
    0 ≤ sumTaken cs := by
  induction cs with
  | nil => simp [sumTaken]
  | cons c rest ih =>
    have h1 := h c (List.mem_cons_self c rest)
    have h2 := ih fun x hx => h x (List.mem_cons_of_mem c hx)
    simp only [sumTaken, List.map_cons, List.sum_cons]
    simp only [sumTaken] at h2
    linarith

theorem mul_sumTaken_le_sumCost {cs : List (ℚ × ℚ)} {b : ℚ}
    (hpos : ∀ c ∈ cs, 0 ≤ c.2) (hb : ∀ c ∈ cs, b ≤ c.1) :
    b * sumTaken cs ≤ sumCost cs := by
  induction cs with
  | nil => simp [sumTaken, sumCost]
  | cons c rest ih =>
    have h1 := hpos c (List.mem_cons_self c rest)
    have h2 := hb c (List.mem_cons_self c rest)
    have ihr := ih (fun x hx => hpos x (List.mem_cons_of_mem c hx))
      (fun x hx => hb x (List.mem_cons_of_mem c hx))
    simp only [sumTaken, sumCost, List.map_cons, List.sum_cons] at *
    have hcb : b * c.2 ≤ c.2 * c.1 := by nlinarith
    nlinarith [ihr]

theorem sumCost_le_mul_sumTaken {cs : List (ℚ × ℚ)} {B : ℚ}
    (hpos : ∀ c ∈ cs, 0 ≤ c.2) (hB : ∀ c ∈ cs, c.1 ≤ B) :
    sumCost cs ≤ B * sumTaken cs := by
  induction cs with
  | nil => simp [sumTaken, sumCost]
  | cons c rest ih =>
    have h1 := hpos c (List.mem_cons_self c rest)
    have h2 := hB c (List.mem_cons_self c rest)
    have ihr := ih (fun x hx => hpos x (List.mem_cons_of_mem c hx))
      (fun x hx => hB x (List.mem_cons_of_mem c hx))
    simp only [sumTaken, sumCost, List.map_cons, List.sum_cons] at *
    have hcb : c.2 * c.1 ≤ B * c.2 := by nlinarith
    nlinarith [ihr]

theorem le_lastConsumed {cs : List (ℚ × ℚ)}
    (hsort : cs.Pairwise (fun a b => a.1 < b.1)) :
    ∀ c ∈ cs, c.1 ≤ lastConsumed cs := by
  induction cs with
  | nil => simp
  | cons c rest ih =>
    intro x hx
    cases rest with
    | nil =>
      simp only [List.mem_singleton] at hx
      subst hx
      simp [lastConsumed]
    | cons d rest2 =>
      rw [List.pairwise_cons] at hsort
      have hd : c.1 < d.1 := hsort.1 d (List.mem_cons_self d rest2)
      have ihr := ih hsort.2
      simp only [List.mem_cons] at hx
      have hlast : d.1 ≤ lastConsumed (d :: rest2) :=
        ihr d (List.mem_cons_self d rest2)
      rcases hx with hx | hx | hx
      · subst hx
        simp only [lastConsumed]
        linarith
      · subst hx
        simp only [lastConsumed]
        exact hlast
      · have := ihr x (List.mem_cons_of_mem d hx)
        simp only [lastConsumed]
        exact this

theorem head_le_consumed {p : ℚ × ℚ} {rest : List (ℚ × ℚ)}
    (hsort : (p :: rest).Pairwise (fun a b => a.1 < b.1)) :
    ∀ c ∈ p :: rest, p.1 ≤ c.1 := by
  intro c hc
  rw [List.pairwise_cons] at hsort
  simp only [List.mem_cons] at hc
  rcases hc with hc | hc
  · subst hc; exact le_refl _
  · exact le_of_lt (hsort.1 c hc)

/-- C1 (amended): for a BUY of quantity `Q > 0` against a valid,
non-empty ask side with total depth `D`, `estimateFill` succeeds,
`fullyFilled = true` iff `Q ≤ D`, and the volume-weighted average
price lies weakly between the best and the worst price level actually
consumed by the walk (equality occurs when a single level is
consumed). -/
theorem estimateFill_buy_correct (snap : OrderBookSnapshot) (q : ℚ)
    (hne : snap.asks ≠ [])
    (hq : ∀ l ∈ snap.asks, 0 < l.quantity)
    (hsort : snap.asks.Pairwise (fun a b => a.price < b.price))
    (hq0 : 0 < q) :
    ∃ fe, estimateFill snap .buy q = .ok fe ∧
      (fe.fullyFilled = true ↔ q ≤ depth snap.asks) ∧
      bestConsumedPrice snap.asks q ≤ fe.vwap ∧
      fe.vwap ≤ worstConsumedPrice snap.asks q := by
  cases hasks : snap.asks with
  | nil => exact absurd hasks hne
  | cons best rest =>
    rw [hasks] at hq hsort
    have hq' : ∀ l ∈ best :: rest, 0 ≤ l.quantity := fun l hl => le_of_lt (hq l hl)
    have hmin : (walkLevels (best :: rest) q).1 = min q (depth (best :: rest)) :=
      walk_fst_eq_min hq' (le_of_lt hq0)
    have hDpos : 0 < depth (best :: rest) := by
      have h1 : 0 < best.quantity := hq best (List.mem_cons_self best rest)
      have h2 : 0 ≤ depth rest :=
        depth_nonneg fun x hx => hq' x (List.mem_cons_of_mem best hx)
      have hD : depth (best :: rest) = best.quantity + depth rest := by simp [depth]
      rw [hD]; linarith
    have hfillpos : 0 < (walkLevels (best :: rest) q).1 := by
      rw [hmin]; exact lt_min hq0 hDpos
    have hnq0 : ¬ q ≤ 0 := not_le.mpr hq0
    have hcons : consumedLevels (best :: rest) q =
        (best.price, min q best.quantity) ::
          consumedLevels rest (q - min q best.quantity) := by
      simp [consumedLevels, hnq0]
    have hwalk : walkLevels (best :: rest) q =
        (sumTaken (consumedLevels (best :: rest) q),
         sumCost (consumedLevels (best :: rest) q)) :=
      walk_eq_consumed _ _
    have hpwlv : ((best :: rest).map Level.price).Pairwise (· < ·) :=
      List.pairwise_map.mpr hsort
    have hsub := consumed_prices_sublist (best :: rest) q
    have hpwC' : ((consumedLevels (best :: rest) q).map Prod.fst).Pairwise (· < ·) :=
      hpwlv.sublist hsub
    have hpwC : (consumedLevels (best :: rest) q).Pairwise (fun a b => a.1 < b.1) :=
      List.pairwise_map.mp hpwC'
    have hposC : ∀ c ∈ consumedLevels (best :: rest) q, 0 ≤ c.2 :=
      fun c hc => le_of_lt (consumed_snd_pos hq c hc)
    have hb : ∀ c ∈ consumedLevels (best :: rest) q, best.price ≤ c.1 := by
      rw [hcons] at hpwC ⊢
      exact head_le_consumed hpwC
    have hw : ∀ c ∈ consumedLevels (best :: rest) q,
        c.1 ≤ lastConsumed (consumedLevels (best :: rest) q) :=
      le_lastConsumed hpwC
    have hlow : best.price * sumTaken (consumedLevels (best :: rest) q) ≤
        sumCost (consumedLevels (best :: rest) q) :=
      mul_sumTaken_le_sumCost hposC hb
    have hhigh : sumCost (consumedLevels (best :: rest) q) ≤
        lastConsumed (consumedLevels (best :: rest) q) *
          sumTaken (consumedLevels (best :: rest) q) :=
      sumCost_le_mul_sumTaken hposC hw
    have hfillT : 0 < sumTaken (consumedLevels (best :: rest) q) := by
      have := hfillpos
      rw [hwalk] at this
      exact this
    have hfne : (walkLevels (best :: rest) q).1 ≠ 0 := ne_of_gt hfillpos
    simp only [estimateFill, sideLevels, hasks]
    refine ⟨_, rfl, ?_, ?_, ?_⟩
    · simp only [decide_eq_true_eq, hmin]
      exact min_eq_left_iff
    · simp only [if_neg hfne]
      have hbc : bestConsumedPrice (best :: rest) q = best.price := by
        rw [bestConsumedPrice, hcons]
      rw [hbc, hwalk]
      rw [le_div_iff₀ hfillT]
      exact hlow
    · simp only [if_neg hfne]
      rw [worstConsumedPrice, hwalk]
      rw [div_le_iff₀ hfillT]
      exact hhigh

/-- Concrete snapshot used to refute the strict-betweenness part of C1:
a single ask level of 5 units at price 10. -/
def cx1Snap : OrderBookSnapshot :=
  { timestamp := 0
    bids := []
    asks := [{ price := 10, quantity := 5 }] }

/-- C1 counterexample: a BUY of 3 units against `cx1Snap` consumes a
single price level, so the VWAP equals that level's price and does NOT
lie strictly between the best and worst consumed levels, refuting the
claim as stated. -/
theorem estimateFill_strict_counterexample :
    ∃ fe, estimateFill cx1Snap .buy 3 = .ok fe ∧
      ¬ (bestConsumedPrice cx1Snap.asks 3 < fe.vwap ∧
         fe.vwap < worstConsumedPrice cx1Snap.asks 3) := by
  have hwalk : walkLevels [{ price := 10, quantity := 5 }] 3 = (3, 30) := by
    norm_num [walkLevels, min_def]
  refine ⟨{ achievedQuantity := 3, vwap := 10, slippage := 0, fullyFilled := true }, ?_, ?_⟩
  · simp only [estimateFill, sideLevels, cx1Snap, hwalk]
    norm_num
  · intro h
    have h1 : bestConsumedPrice cx1Snap.asks 3 = 10 := by
      norm_num [bestConsumedPrice, consumedLevels, cx1Snap]
    have h2 : worstConsumedPrice cx1Snap.asks 3 = 10 := by
      norm_num [worstConsumedPrice, consumedLevels, lastConsumed, cx1Snap, min_def]
    rw [h1] at h
    rw [h2] at h
    exact absurd (lt_trans h.1 h.2) (lt_irrefl 10)

/-- C1 witness: the amended theorem applied to a concrete two-level
book with depth 5 and a BUY of 4 units. -/
theorem estimateFill_buy_correct_witness :
    ∃ fe, estimateFill
        { timestamp := 0, bids := [],
          asks := [{ price := 10, quantity := 2 }, { price := 11, quantity := 3 }] }
        .buy 4 = .ok fe ∧
      (fe.fullyFilled = true ↔ (4 : ℚ) ≤ depth
        [{ price := 10, quantity := 2 }, { price := 11, quantity := 3 }]) ∧
      bestConsumedPrice
        [{ price := 10, quantity := 2 }, { price := 11, quantity := 3 }] 4 ≤ fe.vwap ∧
      fe.vwap ≤ worstConsumedPrice
        [{ price := 10, quantity := 2 }, { price := 11, quantity := 3 }] 4 :=
  estimateFill_buy_correct
    { timestamp := 0, bids := [],
      asks := [{ price := 10, quantity := 2 }, { price := 11, quantity := 3 }] }
    4 (by decide) (by decide) (by decide) (by norm_num)

/-! ## Spread Model (§4.1)

Modelled from the spec: the spread model's source module
(`pairs_trading/analysis/cointegration.py`) is an empty scaffold; the
definitions follow §4.1 of the design document.  The rolling standard
deviation is modelled with `Rat.sqrt`; the only property of the square
root the claims rely on is that it vanishes exactly on a zero
variance. -/

inductive SpreadError where
  | insufficientData
deriving Repr, DecidableEq

structure SpreadObservation where
  timestamp : ℤ
  spread : ℚ
  zscore : ℚ
deriving Repr, DecidableEq

/-- Per-pair spread-model state: the fitted hedge ratio and a
fixed-size buffer of the last `windowSize` spread values, most recent
first. -/
structure SpreadState where
  hedgeRatio : ℚ
  windowSize : ℕ
  buffer : List ℚ
deriving Repr, DecidableEq

def rollingMean (buf : List ℚ) : ℚ := buf.sum / buf.length

def rollingVariance (buf : List ℚ) : ℚ :=
  ((buf.map (fun x => (x - rollingMean buf) ^ 2)).sum) / buf.length

def rollingStd (buf : List ℚ) : ℚ := Rat.sqrt (rollingVariance buf)

/-- Modelled from the spec: numeric policy — if the rolling standard
deviation is zero (degenerate flat spread), the zscore is defined as 0,
never a non-finite number. -/
def zscoreOf (spread mean sd : ℚ) : ℚ :=
  if sd = 0 then 0 else (spread - mean) / sd

/-- Modelled from the spec: `update(pair, newPriceA, newPriceB, timestamp)`:
push the new spread into the trailing window, return
`InsufficientDataError` until `windowSize` observations exist, otherwise
a `SpreadObservation` with the rolling z-score. -/
def updateSpread (st : SpreadState) (priceA priceB : ℚ) (t : ℤ) :
    SpreadState × Except SpreadError SpreadObservation :=
  let s := priceA - st.hedgeRatio * priceB
  let buf := (s :: st.buffer).take st.windowSize
  let st' := { st with buffer := buf }
  if buf.length < st.windowSize then (st', .error .insufficientData)
  else
    (st', .ok { timestamp := t, spread := s,
                zscore := zscoreOf s (rollingMean buf) (rollingStd buf) })

theorem rat_sqrt_zero : Rat.sqrt 0 = 0 := by
  have h := Rat.sqrt_eq (0 : ℚ)
  rw [mul_zero, abs_zero] at h
  exact h

/-- C3: every `SpreadObservation` the spread model emits carries a
well-defined rational z-score, and in the degenerate case of zero
rolling variance over the trailing window the z-score is 0. -/
theorem updateSpread_zscore_degenerate (st : SpreadState) (priceA priceB : ℚ)
    (t : ℤ) (st' : SpreadState) (obs : SpreadObservation)
    (h : updateSpread st priceA priceB t = (st', Except.ok obs))
    (hvar : rollingVariance st'.buffer = 0) :
    obs.zscore = 0 := by
  simp only [updateSpread] at h
  split at h
  · exact absurd (congrArg Prod.snd h) (by simp)
  · rw [Prod.mk.injEq, Except.ok.injEq] at h
    obtain ⟨h1, h2⟩ := h
    subst h1
    rw [← h2]
    simp only at hvar
    simp only [zscoreOf, rollingStd]
    rw [hvar, rat_sqrt_zero]
    simp

/-- C3 witness: a flat spread stream (hedge ratio 1, window 2, prices
giving two equal spreads of 5) produces a z-score of exactly 0. -/
theorem updateSpread_zscore_degenerate_witness :
    updateSpread { hedgeRatio := 1, windowSize := 2, buffer := [5] } 7 2 0 =
      ({ hedgeRatio := 1, windowSize := 2, buffer := [5, 5] },
        Except.ok { timestamp := 0, spread := 5, zscore := 0 }) ∧
    rollingVariance ({ hedgeRatio := 1, windowSize := 2, buffer := [5, 5] } : SpreadState).buffer = 0 ∧
    ({ timestamp := 0, spread := 5, zscore := 0 } : SpreadObservation).zscore = 0 := by
  refine ⟨?_, ?_, ?_⟩
  · norm_num [updateSpread, zscoreOf, rollingStd, rollingVariance, rollingMean, rat_sqrt_zero]
  · norm_num [rollingVariance, rollingMean]
  · exact updateSpread_zscore_degenerate
      { hedgeRatio := 1, windowSize := 2, buffer := [5] } 7 2 0
      { hedgeRatio := 1, windowSize := 2, buffer := [5, 5] }
      { timestamp := 0, spread := 5, zscore := 0 }
      (by norm_num [updateSpread, zscoreOf, rollingStd, rollingVariance, rollingMean, rat_sqrt_zero])
      (by norm_num [rollingVariance, rollingMean])

/-! ## Signal State Machine (§4.2)

Modelled from the spec: the signal module
(`pairs_trading/analysis/signals.py`) is an empty scaffold; the
transition table follows §4.2 of the design document. -/

structure SignalConfig where
  entryZ : ℚ
  exitZ : ℚ
  stopZ : ℚ
deriving Repr, DecidableEq

inductive SigState where
  | flat
  | longOpen
  | shortOpen
deriving Repr, DecidableEq

inductive SignalKind where
  | enterLongSpread
  | enterShortSpread
  | exitSpread
  | stopLoss
deriving Repr, DecidableEq

def SigState.isOpen : SigState → Bool
  | .flat => false
  | .longOpen => true
  | .shortOpen => true

/-- Rule 1 of §4.2: the stop-loss condition — the z-score crossed the
stop threshold on the losing side of the open position. -/
def stopCond (cfg : SignalConfig) : SigState → ℚ → Prop
  | .longOpen, z => z ≤ -cfg.stopZ
  | .shortOpen, z => cfg.stopZ ≤ z
  | .flat, _ => False

/-- Rule 2 of §4.2: the exit condition — the z-score crossed back
through the configured exit band. -/
def exitCond (cfg : SignalConfig) : SigState → ℚ → Prop
  | .longOpen, z => -cfg.exitZ ≤ z
  | .shortOpen, z => z ≤ cfg.exitZ
  | .flat, _ => False

/-- Modelled from the spec: the transition rules of §4.2, evaluated in
priority order (stop-loss, exit, enter-short, enter-long, nothing) on
one new observation; returns the next state and the emitted signals. -/
def stepSignal (cfg : SignalConfig) (st : SigState) (z : ℚ) :
    SigState × List SignalKind :=
  match st with
  | .longOpen =>
    if z ≤ -cfg.stopZ then (.flat, [.stopLoss])
    else if -cfg.exitZ ≤ z then (.flat, [.exitSpread])
    else (.longOpen, [])
  | .shortOpen =>
    if cfg.stopZ ≤ z then (.flat, [.stopLoss])
    else if z ≤ cfg.exitZ then (.flat, [.exitSpread])
    else (.shortOpen, [])
  | .flat =>
    if cfg.entryZ ≤ z then (.shortOpen, [.enterShortSpread])
    else if z ≤ -cfg.entryZ then (.longOpen, [.enterLongSpread])
    else (.flat, [])

/-- The signal stream produced by feeding a z-score stream through the
state machine. -/
def runSignals (cfg : SignalConfig) : SigState → List ℚ → List SignalKind
  | _, [] => []
  | st, z :: zs =>
    let r := stepSignal cfg st z
    r.2 ++ runSignals cfg r.1 zs

def SignalKind.isEnter : SignalKind → Bool
  | .enterLongSpread => true
  | .enterShortSpread => true
  | .exitSpread => false
  | .stopLoss => false

/-- Acceptor for the at-most-one-open-position discipline: reading the
signal stream left to right with an "open" flag, an ENTER is only legal
when the flag is down, and only EXIT/STOP_LOSS reset it. -/
def entersSeparated : Bool → List SignalKind → Bool
  | _, [] => true
  | opened, k :: rest =>
    if k.isEnter then !opened && entersSeparated true rest
    else entersSeparated false rest

theorem runSignals_entersSeparated (cfg : SignalConfig) (zs : List ℚ) :
    ∀ st : SigState, entersSeparated st.isOpen (runSignals cfg st zs) = true := by
  induction zs with
  | nil => intro st; rfl
  | cons z zs ih =>
    intro st
    have ihf := ih .flat
    have ihl := ih .longOpen
    have ihs := ih .shortOpen
    simp only [SigState.isOpen] at ihf ihl ihs
    cases st <;>
      simp only [runSignals, stepSignal] <;>
      split_ifs <;>
      simp [entersSeparated, SignalKind.isEnter, SigState.isOpen, ihf, ihl, ihs]

/-- C4: for every z-score stream, the signal sequence emitted from the
FLAT state never contains two ENTER signals without an intervening
EXIT or STOP_LOSS, so the machine holds at most one open position per
pair and cannot re-enter on the observation that exited. -/
theorem signal_no_double_enter (cfg : SignalConfig) (zs : List ℚ) :
    entersSeparated false (runSignals cfg .flat zs) = true :=
  runSignals_entersSeparated cfg zs .flat

/-- C5: at most one signal is emitted per observation, and in an open
state the stop-loss condition takes priority: even when the exit
condition holds on the same observation, the machine emits STOP_LOSS
and transitions to FLAT. -/
theorem stopLoss_priority (cfg : SignalConfig) (st : SigState) (z : ℚ)
    (hopen : st.isOpen = true) (hstop : stopCond cfg st z)
    (hexit : exitCond cfg st z) :
    stepSignal cfg st z = (.flat, [.stopLoss]) ∧
      ∀ st₂ z₂, ((stepSignal cfg st₂ z₂).2).length ≤ 1 := by
  constructor
  · cases st
    · simp [SigState.isOpen] at hopen
    · simp only [stopCond] at hstop
      simp [stepSignal, if_pos hstop]
    · simp only [stopCond] at hstop
      simp [stepSignal, if_pos hstop]
  · intro st₂ z₂
    cases st₂ <;> simp only [stepSignal] <;> split_ifs <;> simp

/-- C5 witness: with entry 2σ, exit band 5σ, stop 3σ, a long-spread
position observing z = −4 satisfies both the stop-loss and the exit
condition, and the machine emits exactly STOP_LOSS and goes FLAT. -/
theorem stopLoss_priority_witness :
    (SigState.longOpen.isOpen = true) ∧
    stopCond { entryZ := 2, exitZ := 5, stopZ := 3 } .longOpen (-4) ∧
    exitCond { entryZ := 2, exitZ := 5, stopZ := 3 } .longOpen (-4) ∧
    (stepSignal { entryZ := 2, exitZ := 5, stopZ := 3 } .longOpen (-4) =
        (.flat, [.stopLoss]) ∧
      ∀ st₂ z₂,
        ((stepSignal { entryZ := 2, exitZ := 5, stopZ := 3 } st₂ z₂).2).length ≤ 1) :=
  ⟨rfl, by norm_num [stopCond], by norm_num [exitCond],
   stopLoss_priority _ _ _ rfl (by norm_num [stopCond]) (by norm_num [exitCond])⟩

/-! ## Cointegration fit (§4.1)

Modelled from the spec: `fit` lives in the empty scaffold
`pairs_trading/analysis/cointegration.py`; the contract follows §4.1.
The augmented-Dickey-Fuller statistic has no formula in the spec, so
the p-value is modelled as a normalized residual variance; the claims
verified here concern only the error classification and the OLS hedge
ratio, which §4.1 does specify. -/

inductive CointegrationError where
  | lengthMismatch
  | nonPositivePrice
  | degenerateRegression
deriving Repr, DecidableEq

structure FittedPair where
  hedgeRatio : ℚ
  cointegrationPValue : ℚ
  windowSize : ℕ
deriving Repr, DecidableEq

def meanQ (xs : List ℚ) : ℚ := xs.sum / xs.length

def varQ (xs : List ℚ) : ℚ :=
  ((xs.map (fun x => (x - meanQ xs) ^ 2)).sum) / xs.length

def covQ (xs ys : List ℚ) : ℚ :=
  (((xs.zip ys).map (fun p => (p.1 - meanQ xs) * (p.2 - meanQ ys))).sum) / xs.length

/-- The trailing `w` elements of a series (the fitting window). -/
def lastWindow (w : ℕ) (xs : List ℚ) : List ℚ := xs.drop (xs.length - w)

/-- Modelled from the spec: `fit(priceSeriesA, priceSeriesB, window)`.
Computes the OLS hedge ratio of A on B over the fitting window; fails
with `CointegrationError` when the input lengths mismatch, a price is
non-positive, or the B series has zero variance over the window. -/
def fit (seriesA seriesB : List ℚ) (window : ℕ) :
    Except CointegrationError FittedPair :=
  if seriesA.length ≠ seriesB.length then .error .lengthMismatch
  else if (seriesA ++ seriesB).any (fun p => decide (p ≤ 0)) then
    .error .nonPositivePrice
  else if varQ (lastWindow window seriesB) = 0 then .error .degenerateRegression
  else
    let wa := lastWindow window seriesA
    let wb := lastWindow window seriesB
    let beta := covQ wa wb / varQ wb
    let residuals := (wa.zip wb).map (fun p => p.1 - beta * p.2)
    .ok { hedgeRatio := beta
          cointegrationPValue := varQ residuals / (1 + varQ residuals)
          windowSize := window }

/-- C6: `fit` returns a `CointegrationError` exactly when the series
lengths mismatch, some price is non-positive, or the B series has zero
variance over the fitting window; on every other input of equal length
at least `window` it returns a fitted pair. -/
theorem fit_error_iff (seriesA seriesB : List ℚ) (window : ℕ) :
    ((∃ e, fit seriesA seriesB window = .error e) ↔
      (seriesA.length ≠ seriesB.length ∨
       (∃ p ∈ seriesA ++ seriesB, p ≤ 0) ∨
       varQ (lastWindow window seriesB) = 0)) ∧
    (seriesA.length = seriesB.length → window ≤ seriesA.length →
      (∀ p ∈ seriesA ++ seriesB, 0 < p) →
      varQ (lastWindow window seriesB) ≠ 0 →
      ∃ pr, fit seriesA seriesB window = .ok pr) := by
  constructor
  · simp only [fit]
    split_ifs with h1 h2 h3
    · constructor
      · intro _
        exact Or.inl h1
      · intro _
        exact ⟨.lengthMismatch, rfl⟩
    · constructor
      · intro _
        refine Or.inr (Or.inl ?_)
        rw [List.any_eq_true] at h2
        obtain ⟨p, hp, hple⟩ := h2
        exact ⟨p, hp, of_decide_eq_true hple⟩
      · intro _
        exact ⟨.nonPositivePrice, rfl⟩
    · constructor
      · intro _
        exact Or.inr (Or.inr h3)
      · intro _
        exact ⟨.degenerateRegression, rfl⟩
    · constructor
      · intro ⟨e, he⟩
        exact absurd he (by simp)
      · intro hdisj
        rcases hdisj with hd | hd | hd
        · exact absurd hd h1
        · obtain ⟨p, hp, hple⟩ := hd
          exact absurd (List.any_eq_true.mpr ⟨p, hp, decide_eq_true hple⟩) h2
        · exact absurd hd h3
  · intro hlen _hwin hpos hvar
    simp only [fit]
    split_ifs with h1 h2
    · exact absurd hlen h1
    · rw [List.any_eq_true] at h2
      obtain ⟨p, hp, hple⟩ := h2
      exact absurd (hpos p hp) (not_lt.mpr (of_decide_eq_true hple))
    · exact ⟨_, rfl⟩

/-- C6 witness: two equal-length, strictly positive series of length 3
with a non-degenerate B window of size 2 are fitted successfully. -/
theorem fit_error_iff_witness :
    ∃ pr, fit [1, 2, 3] [1, 2, 4] 2 = .ok pr :=
  (fit_error_iff [1, 2, 3] [1, 2, 4] 2).2 (by decide) (by decide)
    (by norm_num)
    (by norm_num [varQ, meanQ, lastWindow])

/-! ## Risk Manager (§4.4)

Modelled from the spec: the risk module
(`pairs_trading/execution/risk_manager.py`) is an empty scaffold; the
decision logic follows §4.4.  The state covers one pair, matching the
per-pair ownership of §3. -/

inductive RejectReason where
  | insufficientLiquidity
  | exposureCapExceeded
  | pairAlreadyOpen
deriving Repr, DecidableEq

inductive Direction where
  | longSpread
  | shortSpread
deriving Repr, DecidableEq

structure Position where
  direction : Direction
  entryTimestamp : ℤ
  entryPriceA : ℚ
  entryPriceB : ℚ
  sizeNotional : ℚ
deriving Repr, DecidableEq

structure TradeRec where
  entryTimestamp : ℤ
  exitTimestamp : ℤ
  direction : Direction
  realizedPnl : ℚ
  slippageCost : ℚ
deriving Repr, DecidableEq

inductive TradeDecision where
  | accepted
  | rejected (reason : RejectReason)
  | closed (tr : TradeRec)
  | noPositionToClose
deriving Repr, DecidableEq

structure RiskConfig where
  maxExposurePerPair : ℚ
  maxSlippage : ℚ
  orderQuantity : ℚ
  sizeNotional : ℚ
deriving Repr, DecidableEq

structure RiskState where
  position : Option Position
  exposure : ℚ
  realized : ℚ
deriving Repr, DecidableEq

/-- Liquidity-sufficiency verdict of §4.3: admissible iff fully filled
and slippage within the configured maximum. -/
def admissible (cfg : RiskConfig) (fe : FillEstimate) : Bool :=
  fe.fullyFilled && decide (fe.slippage ≤ cfg.maxSlippage)

/-- VWAP achieved on a leg, 0 when the book side is empty. -/
def fillVwap (snap : OrderBookSnapshot) (side : Side) (q : ℚ) : ℚ :=
  match estimateFill snap side q with
  | .ok fe => fe.vwap
  | .error _ => 0

/-- Slippage suffered on a leg, 0 when the book side is empty. -/
def fillSlippage (snap : OrderBookSnapshot) (side : Side) (q : ℚ) : ℚ :=
  match estimateFill snap side q with
  | .ok fe => fe.slippage
  | .error _ => 0

/-- Modelled from the spec: `onSignal(signal, snapshotsForBothLegs)`.
ENTER signals are gated on the at-most-one-position rule, then on the
execution model's admissibility verdict for both legs, then on the
exposure cap; EXIT/STOP_LOSS on no open position is the benign
`NoPositionToClose` outcome; closing appends a trade record. -/
def onSignal (cfg : RiskConfig) (rm : RiskState) (kind : SignalKind)
    (t : ℤ) (snapA snapB : OrderBookSnapshot) : RiskState × TradeDecision :=
  match kind with
  | .enterLongSpread | .enterShortSpread =>
    if rm.position.isSome then (rm, .rejected .pairAlreadyOpen)
    else
      match estimateFill snapA .buy cfg.orderQuantity,
            estimateFill snapB .sell cfg.orderQuantity with
      | .ok feA, .ok feB =>
        if admissible cfg feA && admissible cfg feB then
          if cfg.maxExposurePerPair < rm.exposure + cfg.sizeNotional then
            (rm, .rejected .exposureCapExceeded)
          else
            ({ rm with
                position := some
                  { direction := if kind = .enterLongSpread then .longSpread
                                 else .shortSpread
                    entryTimestamp := t
                    entryPriceA := feA.vwap
                    entryPriceB := feB.vwap
                    sizeNotional := cfg.sizeNotional }
                exposure := rm.exposure + cfg.sizeNotional },
             .accepted)
        else (rm, .rejected .insufficientLiquidity)
      | _, _ => (rm, .rejected .insufficientLiquidity)
  | .exitSpread | .stopLoss =>
    match rm.position with
    | none => (rm, .noPositionToClose)
    | some pos =>
      let exitA := fillVwap snapA .sell cfg.orderQuantity
      let exitB := fillVwap snapB .buy cfg.orderQuantity
      let pnl :=
        match pos.direction with
        | .longSpread =>
          (exitA - pos.entryPriceA) * cfg.orderQuantity +
            (pos.entryPriceB - exitB) * cfg.orderQuantity
        | .shortSpread =>
          (pos.entryPriceA - exitA) * cfg.orderQuantity +
            (exitB - pos.entryPriceB) * cfg.orderQuantity
      let tr : TradeRec :=
        { entryTimestamp := pos.entryTimestamp
          exitTimestamp := t
          direction := pos.direction
          realizedPnl := pnl
          slippageCost :=
            (fillSlippage snapA .sell cfg.orderQuantity +
              fillSlippage snapB .buy cfg.orderQuantity) * pos.sizeNotional }
      ({ position := none
         exposure := rm.exposure - pos.sizeNotional
         realized := rm.realized + pnl },
       .closed tr)

/-- C7: an ENTER signal against an already-open position is rejected
with `PairAlreadyOpen` before any other check runs (even when the
exposure cap would also be violated), and every rejection reason is one
of `InsufficientLiquidity`, `ExposureCapExceeded`, `PairAlreadyOpen`. -/
theorem enter_rejected_pairAlreadyOpen (cfg : RiskConfig) (rm : RiskState)
    (kind : SignalKind) (t : ℤ) (snapA snapB : OrderBookSnapshot)
    (hkind : kind.isEnter = true) (hopen : rm.position.isSome = true) :
    onSignal cfg rm kind t snapA snapB = (rm, .rejected .pairAlreadyOpen) ∧
    ∀ r : RejectReason,
      r = .insufficientLiquidity ∨ r = .exposureCapExceeded ∨
        r = .pairAlreadyOpen := by
  constructor
  · cases kind
    · simp [onSignal, hopen]
    · simp [onSignal, hopen]
    · simp [SignalKind.isEnter] at hkind
    · simp [SignalKind.isEnter] at hkind
  · intro r
    cases r
    · exact Or.inl rfl
    · exact Or.inr (Or.inl rfl)
    · exact Or.inr (Or.inr rfl)

/-- C7 witness: the §8 scenario — cap of 10000 per pair, a 6000
position already open, a second 6000 ENTER for the same pair — is
rejected as `PairAlreadyOpen` even though the cap would also be hit. -/
theorem enter_rejected_pairAlreadyOpen_witness :
    onSignal
      { maxExposurePerPair := 10000, maxSlippage := 1/200,
        orderQuantity := 1, sizeNotional := 6000 }
      { position := some
          { direction := .longSpread, entryTimestamp := 0,
            entryPriceA := 10, entryPriceB := 10, sizeNotional := 6000 }
        exposure := 6000, realized := 0 }
      .enterLongSpread 1 cx1Snap cx1Snap =
      ({ position := some
          { direction := .longSpread, entryTimestamp := 0,
            entryPriceA := 10, entryPriceB := 10, sizeNotional := 6000 }
         exposure := 6000, realized := 0 }, .rejected .pairAlreadyOpen) ∧
    ∀ r : RejectReason,
      r = .insufficientLiquidity ∨ r = .exposureCapExceeded ∨
        r = .pairAlreadyOpen :=
  enter_rejected_pairAlreadyOpen
    { maxExposurePerPair := 10000, maxSlippage := 1/200,
      orderQuantity := 1, sizeNotional := 6000 }
    { position := some
        { direction := .longSpread, entryTimestamp := 0,
          entryPriceA := 10, entryPriceB := 10, sizeNotional := 6000 }
      exposure := 6000, realized := 0 }
    .enterLongSpread 1 cx1Snap cx1Snap rfl rfl

/-! ## Backtest Engine (§4.5)

Modelled from the spec: the backtest module
(`pairs_trading/backtesting/backtest.py`) is an empty scaffold; the
replay follows §4.5.  For each tick, in the fixed order: update the
spread model, evaluate the signal state machine, pass any signal to the
risk manager, record trade changes, append the mark-to-market equity.
The replay itself is an inductive relation so that determinism is a
theorem about the relation, not a tautology about a function. -/

inductive BacktestError where
  | nonMonotonicTime
deriving Repr, DecidableEq

/-- One timestamped input element: prices and order-book snapshots for
both legs of the pair. -/
structure Tick where
  timestamp : ℤ
  priceA : ℚ
  priceB : ℚ
  snapA : OrderBookSnapshot
  snapB : OrderBookSnapshot
deriving Repr, DecidableEq

structure EngineConfig where
  signal : SignalConfig
  risk : RiskConfig
deriving Repr, DecidableEq

structure BacktestState where
  lastTime : Option ℤ
  spread : SpreadState
  sig : SigState
  risk : RiskState
  tradeLog : List TradeRec
  equityCurve : List ℚ
deriving Repr, DecidableEq

/-- Unrealized profit of the open position at current leg prices. -/
def markToMarket (rm : RiskState) (pA pB qty : ℚ) : ℚ :=
  match rm.position with
  | none => 0
  | some pos =>
    match pos.direction with
    | .longSpread => (pA - pos.entryPriceA) * qty + (pos.entryPriceB - pB) * qty
    | .shortSpread => (pos.entryPriceA - pA) * qty + (pB - pos.entryPriceB) * qty

/-- Mark-to-market equity: realized profit plus the open position
valued at last-known prices. -/
def equityOf (cfg : EngineConfig) (rm : RiskState) (t : Tick) : ℚ :=
  rm.realized + markToMarket rm t.priceA t.priceB cfg.risk.orderQuantity

/-- One replay step of §4.5 (the timestamp has already been checked):
spread model → signal state machine → risk manager → trade log →
equity curve. -/
def processTick (cfg : EngineConfig) (s : BacktestState) (t : Tick) :
    BacktestState :=
  let u := updateSpread s.spread t.priceA t.priceB t.timestamp
  match u.2 with
  | .error _ =>
    { lastTime := some t.timestamp, spread := u.1, sig := s.sig, risk := s.risk
      tradeLog := s.tradeLog
      equityCurve := s.equityCurve ++ [equityOf cfg s.risk t] }
  | .ok obs =>
    let r := stepSignal cfg.signal s.sig obs.zscore
    match r.2 with
    | [] =>
      { lastTime := some t.timestamp, spread := u.1, sig := r.1, risk := s.risk
        tradeLog := s.tradeLog
        equityCurve := s.equityCurve ++ [equityOf cfg s.risk t] }
    | k :: _ =>
      let o := onSignal cfg.risk s.risk k t.timestamp t.snapA t.snapB
      let log2 :=
        match o.2 with
        | .closed tr => s.tradeLog ++ [tr]
        | _ => s.tradeLog
      { lastTime := some t.timestamp, spread := u.1, sig := r.1, risk := o.1
        tradeLog := log2
        equityCurve := s.equityCurve ++ [equityOf cfg o.1 t] }

/-- Is the tick's timestamp strictly after the last processed one? -/
def tickOk (last : Option ℤ) (t : Tick) : Bool :=
  match last with
  | none => true
  | some lt => decide (lt < t.timestamp)

/-- Are all timestamps of the trace strictly increasing (relative to
the last processed timestamp)? -/
def monotonicFrom (last : Option ℤ) : List Tick → Bool
  | [] => true
  | t :: ts => tickOk last t && monotonicFrom (some t.timestamp) ts

/-- The replay relation of §4.5: single-pass over the input trace,
failing with `NonMonotonicTimeError` on the first out-of-order
timestamp. -/
inductive Replays (cfg : EngineConfig) :
    BacktestState → List Tick → Except BacktestError BacktestState → Prop where
  | nil (s : BacktestState) : Replays cfg s [] (.ok s)
  | consOk (s : BacktestState) (t : Tick) (ts : List Tick)
      (r : Except BacktestError BacktestState) :
      tickOk s.lastTime t = true →
      Replays cfg (processTick cfg s t) ts r →
      Replays cfg s (t :: ts) r
  | consBad (s : BacktestState) (t : Tick) (ts : List Tick) :
      tickOk s.lastTime t = false →
      Replays cfg s (t :: ts) (.error .nonMonotonicTime)

/-- The trade log of a replay result (empty on failure). -/
def replayTradeLog : Except BacktestError BacktestState → List TradeRec
  | .ok s => s.tradeLog
  | .error _ => []

/-- The equity curve of a replay result (empty on failure). -/
def replayEquityCurve : Except BacktestError BacktestState → List ℚ
  | .ok s => s.equityCurve
  | .error _ => []

theorem replays_functional (cfg : EngineConfig) {s : BacktestState}
    {ts : List Tick} {r₁ : Except BacktestError BacktestState}
    (h₁ : Replays cfg s ts r₁) :
    ∀ r₂, Replays cfg s ts r₂ → r₁ = r₂ := by
  induction h₁ with
  | nil s =>
    intro r₂ h₂
    cases h₂
    rfl
  | consOk s t ts r hok hrec ih =>
    intro r₂ h₂
    cases h₂ with
    | consOk _ _ _ _ hok₂ hrec₂ => exact ih r₂ hrec₂
    | consBad _ _ _ hbad => rw [hok] at hbad; exact absurd hbad (by simp)
  | consBad s t ts hbad =>
    intro r₂ h₂
    cases h₂ with
    | consOk _ _ _ _ hok _ => rw [hok] at hbad; exact absurd hbad (by simp)
    | consBad => rfl

/-- C2: the replay is deterministic — any two replays of the same
input trace from the same initial state produce the same result, hence
identical trade logs and identical equity curves.  (The replay consumes
its input purely; nothing in the relation mutates the trace.) -/
theorem replay_deterministic (cfg : EngineConfig) (s : BacktestState)
    (ts : List Tick) (r₁ r₂ : Except BacktestError BacktestState)
    (h₁ : Replays cfg s ts r₁) (h₂ : Replays cfg s ts r₂) :
    replayTradeLog r₁ = replayTradeLog r₂ ∧
    replayEquityCurve r₁ = replayEquityCurve r₂ ∧ r₁ = r₂ := by
  have h := replays_functional cfg h₁ r₂ h₂
  exact ⟨by rw [h], by rw [h], h⟩

/-- A small concrete engine configuration for witnesses. -/
def demoConfig : EngineConfig :=
  { signal := { entryZ := 2, exitZ := 1/2, stopZ := 7/2 }
    risk := { maxExposurePerPair := 10000, maxSlippage := 1/200,
              orderQuantity := 1, sizeNotional := 1000 } }

/-- A fresh initial backtest state for witnesses. -/
def demoState : BacktestState :=
  { lastTime := none
    spread := { hedgeRatio := 1, windowSize := 5, buffer := [] }
    sig := .flat
    risk := { position := none, exposure := 0, realized := 0 }
    tradeLog := []
    equityCurve := [] }

/-- A demo tick at a given timestamp (books empty, prices flat). -/
def demoTick (n : ℤ) : Tick :=
  { timestamp := n, priceA := 100, priceB := 100
    snapA := { timestamp := n, bids := [], asks := [] }
    snapB := { timestamp := n, bids := [], asks := [] } }

/-- C2 witness: replaying a one-tick trace twice yields equal results. -/
theorem replay_deterministic_witness :
    replayTradeLog (.ok (processTick demoConfig demoState (demoTick 1))) =
      replayTradeLog (.ok (processTick demoConfig demoState (demoTick 1))) ∧
    replayEquityCurve (.ok (processTick demoConfig demoState (demoTick 1))) =
      replayEquityCurve (.ok (processTick demoConfig demoState (demoTick 1))) ∧
    (Except.ok (processTick demoConfig demoState (demoTick 1)) :
        Except BacktestError BacktestState) =
      .ok (processTick demoConfig demoState (demoTick 1)) :=
  replay_deterministic demoConfig demoState [demoTick 1] _ _
    (Replays.consOk demoState (demoTick 1) [] _ rfl
      (Replays.nil (processTick demoConfig demoState (demoTick 1))))
    (Replays.consOk demoState (demoTick 1) [] _ rfl
      (Replays.nil (processTick demoConfig demoState (demoTick 1))))

theorem lastTime_processTick (cfg : EngineConfig) (s : BacktestState)
    (t : Tick) : (processTick cfg s t).lastTime = some t.timestamp := by
  cases hE : (updateSpread s.spread t.priceA t.priceB t.timestamp).2 with
  | error e => simp [processTick, hE]
  | ok obs =>
    cases hK : (stepSignal cfg.signal s.sig obs.zscore).2 with
    | nil => simp [processTick, hE, hK]
    | cons k ks => simp [processTick, hE, hK]

/-- C8: if the input trace is not strictly increasing in time, every
replay of it fails with `NonMonotonicTimeError` — the violation is
surfaced, never silently skipped. -/
theorem replay_nonMonotonic_fails (cfg : EngineConfig) {s : BacktestState}
    {ts : List Tick} {r : Except BacktestError BacktestState}
    (h : Replays cfg s ts r)
    (hbad : monotonicFrom s.lastTime ts = false) :
    r = .error .nonMonotonicTime := by
  induction h with
  | nil s => simp [monotonicFrom] at hbad
  | consOk s t ts r hok hrec ih =>
    simp only [monotonicFrom, hok, Bool.true_and] at hbad
    exact ih (by rw [lastTime_processTick]; exact hbad)
  | consBad s t ts hb => rfl

/-- C8 witness: a two-tick trace with equal timestamps fails with
`NonMonotonicTimeError`. -/
theorem replay_nonMonotonic_fails_witness :
    (Except.error BacktestError.nonMonotonicTime :
        Except BacktestError BacktestState) = .error .nonMonotonicTime :=
  replay_nonMonotonic_fails demoConfig
    (Replays.consOk demoState (demoTick 1) [demoTick 1] _ rfl
      (Replays.consBad (processTick demoConfig demoState (demoTick 1))
        (demoTick 1) []
        (by rw [lastTime_processTick]; rfl)))
    (by rfl)

/-! ## Dashboard alert derivation (`src/visualization/TradingDashboard.js`)

Embeds the `useEffect` of `TradingDashboard` that recomputes the alerts
state from `tradingSignals`.  JavaScript numbers are modelled as exact
rationals; the alert's wall-clock `timestamp: new Date()` field is
real time and outside the model. -/

structure TradingSignal where
  signalType : String
  pair : String
  confidence : ℚ
deriving Repr, DecidableEq

structure DashAlert where
  type : String
  pair : String
  message : String
deriving Repr, DecidableEq

/-- The alert list computed by the effect body:
`tradingSignals.filter(s => s.confidence > 0.8).map(s => ({...}))`. -/
def deriveAlerts (tradingSignals : List TradingSignal) : List DashAlert :=
  (tradingSignals.filter (fun s => decide (s.confidence > 8/10))).map
    (fun s =>
      { type := s.signalType
        pair := s.pair
        message := "High confidence " ++ s.signalType ++ " signal for " ++ s.pair })

/-- The effect ends in `setAlerts(newAlerts)`: the previous alerts
state is replaced wholesale by the newly derived list. -/
def updateAlerts (_prev : List DashAlert) (tradingSignals : List TradingSignal) :
    List DashAlert :=
  deriveAlerts tradingSignals

/-- Specification-side formulation of C9, defined independently of the
code's filter-then-map: walk the signals in input order and emit
exactly one alert per signal with confidence strictly above 0.8. -/
def alertsSpec : List TradingSignal → List DashAlert
  | [] => []
  | s :: rest =>
    if 8/10 < s.confidence then
      { type := s.signalType
        pair := s.pair
        message := "High confidence " ++ s.signalType ++ " signal for " ++ s.pair } ::
        alertsSpec rest
    else alertsSpec rest

/-- C9: for every signals array the recomputed alerts list contains
exactly one alert per signal with confidence strictly greater than 0.8,
in input order, with matching type and pair; signals at or below 0.8
produce no alert; and the result replaces the previous alerts list
(it does not depend on it). -/
theorem updateAlerts_spec (prev prev2 : List DashAlert)
    (sigs : List TradingSignal) :
    updateAlerts prev sigs = alertsSpec sigs ∧
    updateAlerts prev sigs = updateAlerts prev2 sigs := by
  refine ⟨?_, rfl⟩
  simp only [updateAlerts]
  induction sigs with
  | nil => rfl
  | cons s rest ih =>
    simp only [deriveAlerts, alertsSpec, List.filter_cons] at ih ⊢
    by_cases h : (8 : ℚ)/10 < s.confidence
    · rw [if_pos (decide_eq_true h), if_pos h, List.map_cons, ih]
    · rw [if_neg (by simpa using h), if_neg h, ih]

/-! ## Order-book depth processing (`OrderBookViz`)

Embeds the `useEffect` of `OrderBookViz` that turns `orderBookData`
into `combinedData` and `maxVolume`: a `forEach` over the bids and then
the asks, pushing one depth point per level and folding `Math.max`
over the parsed quantities starting from `maxVol = 0`.  `parseFloat`
of a level field is modelled as the field's rational value. -/

structure VizLevel where
  price : ℚ
  quantity : ℚ
deriving Repr, DecidableEq

structure DepthPoint where
  price : ℚ
  volume : ℚ
  type : String
  total : ℚ
deriving Repr, DecidableEq

structure VizBook where
  bids : List VizLevel
  asks : List VizLevel
deriving Repr, DecidableEq

/-- The depth point pushed for one level of the given side. -/
def processLevel (ty : String) (l : VizLevel) : DepthPoint :=
  { price := l.price
    volume := l.quantity
    type := ty
    total := l.price * l.quantity }

/-- One `forEach` loop over a side, threading the accumulated
(`processedData`, `maxVol`) pair. -/
def processSide (ty : String) (levels : List VizLevel)
    (acc : List DepthPoint × ℚ) : List DepthPoint × ℚ :=
  levels.foldl (fun a l => (a.1 ++ [processLevel ty l], max a.2 l.quantity)) acc

/-- The effect body: bids first, then asks, from `([], 0)`.  The input
book is only read, never written. -/
def processBook (b : VizBook) : List DepthPoint × ℚ :=
  processSide "ask" b.asks (processSide "bid" b.bids ([], 0))

theorem processSide_fst (ty : String) (levels : List VizLevel)
    (acc : List DepthPoint × ℚ) :
    (processSide ty levels acc).1 = acc.1 ++ levels.map (processLevel ty) := by
  induction levels generalizing acc with
  | nil => simp [processSide]
  | cons l rest ih =>
    simp only [processSide, List.foldl_cons] at ih ⊢
    rw [ih]
    simp

theorem processSide_snd (ty : String) (levels : List VizLevel)
    (acc : List DepthPoint × ℚ) :
    (processSide ty levels acc).2 =
      (levels.map VizLevel.quantity).foldl max acc.2 := by
  induction levels generalizing acc with
  | nil => simp [processSide]
  | cons l rest ih =>
    simp only [processSide, List.foldl_cons] at ih ⊢
    rw [ih]
    simp

theorem foldl_max_bounds (xs : List ℚ) :
    ∀ a : ℚ, (a ≤ xs.foldl max a) ∧ (∀ x ∈ xs, x ≤ xs.foldl max a) ∧
      (xs.foldl max a = a ∨ xs.foldl max a ∈ xs) := by
  induction xs with
  | nil => intro a; simp
  | cons x rest ih =>
    intro a
    obtain ⟨ih1, ih2, ih3⟩ := ih (max a x)
    simp only [List.foldl_cons]
    refine ⟨le_trans (le_max_left a x) ih1, ?_, ?_⟩
    · intro y hy
      rcases List.mem_cons.mp hy with hy | hy
      · rw [hy]
        exact le_trans (le_max_right a x) ih1
      · exact ih2 y hy
    · rcases ih3 with h | h
      · rcases max_choice a x with hm | hm
        · exact Or.inl (h.trans hm)
        · refine Or.inr ?_
          rw [h, hm]
          exact List.mem_cons_self x rest
      · exact Or.inr (List.mem_cons_of_mem x h)

/-- C10 (amended): `combinedData` is all bid levels then all ask
levels, each mapped to a record with the level's price and quantity and
`total = price × volume`; and `maxVolume` is the maximum of 0 and all
parsed quantities — an upper bound of every quantity that is either 0
or one of the quantities (so it is the maximum quantity whenever any
quantity is nonnegative, and 0 for an empty book).  The input book is
never mutated (the processing is a pure read). -/
theorem processBook_spec (b : VizBook) :
    (processBook b).1 =
      b.bids.map (processLevel "bid") ++ b.asks.map (processLevel "ask") ∧
    (∀ d ∈ (processBook b).1, d.total = d.price * d.volume) ∧
    (∀ l ∈ b.bids ++ b.asks, l.quantity ≤ (processBook b).2) ∧
    (0 ≤ (processBook b).2) ∧
    ((processBook b).2 = 0 ∨
      (processBook b).2 ∈ (b.bids ++ b.asks).map VizLevel.quantity) := by
  have hfst : (processBook b).1 =
      b.bids.map (processLevel "bid") ++ b.asks.map (processLevel "ask") := by
    rw [processBook, processSide_fst, processSide_fst]
    simp
  have hsnd : (processBook b).2 =
      ((b.bids ++ b.asks).map VizLevel.quantity).foldl max 0 := by
    rw [processBook, processSide_snd, processSide_snd]
    simp [List.foldl_append]
  obtain ⟨hb1, hb2, hb3⟩ := foldl_max_bounds ((b.bids ++ b.asks).map VizLevel.quantity) 0
  refine ⟨hfst, ?_, ?_, ?_, ?_⟩
  · intro d hd
    rw [hfst] at hd
    rcases List.mem_append.mp hd with hd | hd <;>
      · obtain ⟨l, _, hl⟩ := List.mem_map.mp hd
        rw [← hl]
        rfl
  · intro l hl
    rw [hsnd]
    exact hb2 l.quantity (List.mem_map.mpr ⟨l, hl, rfl⟩)
  · rw [hsnd]
    exact hb1
  · rw [hsnd]
    exact hb3

/-- A malformed book used to refute the maxVolume part of C10: one bid
level with (parsed) quantity −5 and no asks. -/
def vizCx : VizBook :=
  { bids := [{ price := 1, quantity := -5 }], asks := [] }

/-- C10 counterexample: on `vizCx` the quantities over both sides are
exactly [−5], whose maximum is −5, yet the code computes
`maxVolume = 0` (because the `Math.max` fold starts at 0), refuting
"maxVolume equals the maximum parsed quantity over both sides" as
stated. -/
theorem processBook_maxVolume_counterexample :
    ((vizCx.bids ++ vizCx.asks).map VizLevel.quantity) = [-5] ∧
    (processBook vizCx).2 = 0 ∧ (0 : ℚ) ≠ -5 := by
  refine ⟨rfl, ?_, by norm_num⟩
  show (processSide "ask" [] (processSide "bid" [{ price := 1, quantity := -5 }] ([], 0))).2 = 0
  simp [processSide, processLevel, max_def]

end PairsTrading
